import Mathlib

/-!
Verification of the AfterSchoolBack order/lesson service.

The definitions below are a shallow embedding of the Express handlers in
the repository (primary variant: the file with the POST /orders handler
that decrements spaces).  MongoDB documents become Lean structures, the
collections become lists carried in an explicit `Store` state, and each
handler becomes a pure function from the incoming request and the store
to a response together with the updated store.  JavaScript numbers are
modelled as integers (`Int`); the data handled by the service (prices,
spaces, quantities) is integral.  Mongo ObjectIds are modelled as `Nat`.
-/

deriving instance DecidableEq for Except

namespace AfterSchool

/-- JavaScript whitespace: the characters matched by the regex class
backslash-s and trimmed by String.prototype.trim (space, tab, line
terminators, NBSP, BOM and the Unicode space separators). -/
def isJsWhitespace (c : Char) : Bool :=
  c.toNat == 32 || c.toNat == 9 || c.toNat == 10 || c.toNat == 11 ||
  c.toNat == 12 || c.toNat == 13 || c.toNat == 160 || c.toNat == 5760 ||
  (8192 ≤ c.toNat && c.toNat ≤ 8202) || c.toNat == 8232 || c.toNat == 8233 ||
  c.toNat == 8239 || c.toNat == 8287 || c.toNat == 12288 || c.toNat == 65279

/-- Model of String.prototype.trim: drop JS whitespace from both ends. -/
def jsTrim (s : String) : String :=
  ⟨((s.data.dropWhile isJsWhitespace).reverse.dropWhile isJsWhitespace).reverse⟩

/-- Characters of the name regex class from POST /orders: ASCII letters,
whitespace, apostrophe (code 39) and hyphen. -/
def nameCharOk (c : Char) : Bool :=
  c.isUpper || c.isLower || isJsWhitespace c || c.toNat == 39 || c == '-'

/-- Matching the anchored name regex of POST /orders: two or more
characters, each drawn from the class above. -/
def matchesNamePattern (s : String) : Bool :=
  decide (2 ≤ s.data.length) && s.data.all nameCharOk

/-- Name validation of POST /orders: reject a falsy (empty) name, then
test the trimmed name against the pattern. -/
def validateName (name : String) : Bool :=
  if name = "" then false else matchesNamePattern (jsTrim name)

/-- Digit stripping of POST /orders: phone.replace of every non-digit
with the empty string (an absent phone yields the empty string). -/
def jsDigits (phone : String) : String :=
  ⟨phone.data.filter Char.isDigit⟩

/-- Phone validation of POST /orders: at least 8 digits must remain
after stripping. -/
def validatePhone (phone : String) : Bool :=
  decide (8 ≤ (jsDigits phone).data.length)

/-- Lesson document of the lessons collection. -/
structure Lesson where
  id : Nat
  subject : String
  location : String
  price : Int
  spaces : Int
deriving Repr, DecidableEq

/-- Line of an order request: lesson identifier plus requested quantity. -/
structure OrderLine where
  lessonId : Nat
  quantity : Int
deriving Repr, DecidableEq

/-- Body of a POST /orders request. -/
structure OrderReq where
  name : String
  phone : String
  lessons : List OrderLine
deriving Repr, DecidableEq

/-- Order document as inserted into the orders collection (the creation
timestamp is not modelled). -/
structure Order where
  name : String
  phone : String
  lessons : List OrderLine
  status : String
deriving Repr, DecidableEq

/-- State of the two collections used by the service. -/
structure Store where
  lessons : List Lesson
  orders : List Order
deriving Repr, DecidableEq

/-- Validation failures of POST /orders, in the order the handler tests
them. -/
inductive OrderError where
  | invalidName
  | invalidPhone
  | noLessonsSelected
  | lessonNotFound
  | insufficientSpaces (lessonId : Nat)
deriving Repr, DecidableEq

/-- Lookup of a lesson document by identifier. -/
def findLesson (st : Store) (id : Nat) : Option Lesson :=
  st.lessons.find? (fun l => l.id == id)

/-- Model of updateOne with an inc of minus quantity on spaces: the
first (in Mongo the unique) document with the given id is updated. -/
def updateOneDec (ls : List Lesson) (id : Nat) (q : Int) : List Lesson :=
  match ls with
  | [] => []
  | l :: rest =>
    if l.id == id then { l with spaces := l.spaces - q } :: rest
    else l :: updateOneDec rest id q

/-- Loop of POST /orders over the requested lines: each line is checked
against the snapshot existingLessons taken before the loop; a missing or
short lesson aborts with its identifier, otherwise a decrement is issued
against the live collection.  The result carries the offending
identifier (if any) together with the collection as mutated so far. -/
def processLines (snapshot : List Lesson) :
    List OrderLine → List Lesson → Option Nat × List Lesson
  | [], cur => (none, cur)
  | line :: rest, cur =>
    match snapshot.find? (fun l => l.id == line.lessonId) with
    | none => (some line.lessonId, cur)
    | some lf =>
      if lf.spaces < line.quantity then (some line.lessonId, cur)
      else processLines snapshot rest (updateOneDec cur line.lessonId line.quantity)

/-- Order document built by POST /orders: trimmed name, normalized
phone, the request lesson list as given, status confirmed. -/
def mkOrder (req : OrderReq) : Order :=
  { name := jsTrim req.name
    phone := jsDigits req.phone
    lessons := req.lessons
    status := "confirmed" }

/-- Identifiers referenced by the lines of a request, in request
order (lessons.map of lessonId in the handler). -/
def lineIds (lines : List OrderLine) : List Nat :=
  lines.map (fun line => line.lessonId)

/-- Batch lookup of POST /orders: Mongo find with an in-set filter
returns each matching document once, in collection order. -/
def existingFor (ls : List Lesson) (ids : List Nat) : List Lesson :=
  ls.filter (fun l => ids.contains l.id)

/-- POST /orders handler: validate name, phone, and the lesson list;
look all referenced lessons up in one batch and reject when the count
differs from the number of lines; then run the check-and-decrement
loop; finally insert the order document. -/
def placeOrder (st : Store) (req : OrderReq) : Except OrderError Order × Store :=
  if !(validateName req.name) then (.error .invalidName, st)
  else if !(validatePhone req.phone) then (.error .invalidPhone, st)
  else if req.lessons.isEmpty then (.error .noLessonsSelected, st)
  else
    if (existingFor st.lessons (lineIds req.lessons)).length ≠ req.lessons.length then
      (.error .lessonNotFound, st)
    else
      match processLines (existingFor st.lessons (lineIds req.lessons)) req.lessons st.lessons with
      | (some badId, cur) =>
        (.error (.insufficientSpaces badId), { st with lessons := cur })
      | (none, cur) =>
        (.ok (mkOrder req), { lessons := cur, orders := st.orders ++ [mkOrder req] })

/-- Accumulated decrements of a successful order: one updateOne per
line, in request order. -/
def decAll (ls : List Lesson) (lines : List OrderLine) : List Lesson :=
  lines.foldl (fun acc line => updateOneDec acc line.lessonId line.quantity) ls

/-- Value of a digit run read most-significant first. -/
def digitsToNat (l : List Char) : Nat :=
  l.foldl (fun acc c => acc * 10 + (c.toNat - 48)) 0

/-- Leading run of ASCII digits. -/
def leadingDigits (l : List Char) : List Char :=
  l.takeWhile Char.isDigit

/-- Model of parseInt in base 10: skip leading whitespace, read an
optional sign and then a leading digit run, ignoring any trailing junk;
none models NaN (no digits).  The automatic hex prefix of parseInt is
not modelled (no caller data uses it). -/
def jsParseInt (s : String) : Option Int :=
  match s.data.dropWhile isJsWhitespace with
  | [] => none
  | c :: rest =>
    if c == '-' then
      if (leadingDigits rest).isEmpty then none
      else some (-(digitsToNat (leadingDigits rest) : Int))
    else if c == '+' then
      if (leadingDigits rest).isEmpty then none
      else some ((digitsToNat (leadingDigits rest) : Int))
    else
      if (leadingDigits (c :: rest)).isEmpty then none
      else some ((digitsToNat (leadingDigits (c :: rest)) : Int))

/-- JavaScript idiom parseInt(x) or-else d: the default applies when the
parameter is absent, when parsing yields NaN, and when it yields the
falsy value 0. -/
def intOrDefault (p : Option String) (d : Int) : Int :=
  match p.bind jsParseInt with
  | none => d
  | some n => if n == 0 then d else n

/-- GET /lessons handler: page and limit read via parseInt with or-else
defaults 1 and 10, skip = (page-1)*limit, then cursor skip and limit on
the collection in its default order.  A negative skip or limit is
rejected by the store driver; that rejection (the handler answers 500)
is modelled as none. -/
def listLessons (st : Store) (pageP limitP : Option String) : Option (List Lesson) :=
  let page := intOrDefault pageP 1
  let limit := intOrDefault limitP 10
  let skip := (page - 1) * limit
  if skip < 0 ∨ limit < 0 then none
  else some ((st.lessons.drop skip.toNat).take limit.toNat)

/-- Numeric value of a JS string as an unreduced fraction num/den with
den a positive power of ten (exact, and kernel-computable unlike a
normalized rational). -/
structure JsNum where
  num : Int
  den : Nat
deriving Repr, DecidableEq

/-- Equality of a parsed JS number with an integer field, by cross
multiplication. -/
def JsNum.eqInt (n : JsNum) (x : Int) : Bool :=
  n.num == x * (n.den : Int)

/-- Model of the Number coercion used by isNaN: a whitespace-only string
is 0; otherwise an optional sign, a decimal mantissa (digits, an
optional point, fractional digits — at least one digit overall) and an
optional exponent, with no trailing junk.  Hex, octal, binary and
Infinity forms are not modelled (unused by the data considered).  none
models NaN. -/
def jsToNumber (s : String) : Option JsNum :=
  match (jsTrim s).data with
  | [] => some ⟨0, 1⟩
  | l =>
    let signed : Bool × List Char :=
      match l with
      | c :: rest =>
        if c == '-' then (true, rest)
        else if c == '+' then (false, rest)
        else (false, l)
      | [] => (false, l)
    let ip := leadingDigits signed.2
    let r1 := signed.2.dropWhile Char.isDigit
    let fp : List Char :=
      match r1 with
      | c :: rest => if c == '.' then leadingDigits rest else []
      | [] => []
    let r2 : List Char :=
      match r1 with
      | c :: rest => if c == '.' then rest.dropWhile Char.isDigit else r1
      | [] => r1
    if ip.isEmpty && fp.isEmpty then none
    else
      let mant : Nat := digitsToNat (ip ++ fp)
      let expv : Option Int :=
        match r2 with
        | [] => some 0
        | c :: rest =>
          if c == 'e' || c == 'E' then
            match rest with
            | [] => none
            | d :: rs =>
              if d == '-' then
                if rs ≠ [] ∧ rs.all Char.isDigit then some (-(digitsToNat rs : Int)) else none
              else if d == '+' then
                if rs ≠ [] ∧ rs.all Char.isDigit then some ((digitsToNat rs : Int)) else none
              else
                if rest.all Char.isDigit then some ((digitsToNat rest : Int)) else none
          else none
      match expv with
      | none => none
      | some e =>
        let sm : Int := if signed.1 then -(mant : Int) else (mant : Int)
        if 0 ≤ e then some ⟨sm * ((10 : Int) ^ e.toNat), 10 ^ fp.length⟩
        else some ⟨sm, 10 ^ (fp.length + (-e).toNat)⟩

/-- Tokens of a text field as indexed by the text index on subject and
location: maximal runs of alphanumeric characters, lowercased.  Modelled
from the spec: section 4.1 delegates full-text matching to the store
text index (tokenized, language-aware); stemming, stop words and
relevance scoring are not modelled. -/
def tokenizeAux : List Char → List Char → List (List Char)
  | [], acc => if acc.isEmpty then [] else [acc.reverse]
  | c :: rest, acc =>
    if c.isAlphanum then tokenizeAux rest (c.toLower :: acc)
    else if acc.isEmpty then tokenizeAux rest []
    else acc.reverse :: tokenizeAux rest []

/-- Tokenization entry point. -/
def tokenize (s : String) : List (List Char) :=
  tokenizeAux s.data []

/-- Text-index match of a search string against a lesson: some term of
the search string occurs as a whole token of subject or location. -/
def textMatches (q : String) (l : Lesson) : Bool :=
  (tokenize q).any (fun t => (tokenize l.subject).contains t || (tokenize l.location).contains t)

/-- GET /search handler: reject a falsy (empty) query; when the query
string converts to a number, match the text index OR price equality OR
spaces equality; otherwise match the text index alone. -/
def searchLessons (st : Store) (q : String) : Option (List Lesson) :=
  if q = "" then none
  else
    match jsToNumber q with
    | some n =>
      some (st.lessons.filter (fun l => textMatches q l || n.eqInt l.price || n.eqInt l.spaces))
    | none => some (st.lessons.filter (fun l => textMatches q l))

/-- Predicate written from the claim (spec section 4.1): subject or
location case-insensitively contains the character as a substring. -/
def specSingleCharMatch (c : Char) (l : Lesson) : Bool :=
  l.subject.data.any (fun d => d.toLower == c.toLower) ||
  l.location.data.any (fun d => d.toLower == c.toLower)

/-- Token-level single-character match: the lowercased character is a
whole token of subject or location. -/
def tokenHasChar (c : Char) (l : Lesson) : Bool :=
  (tokenize l.subject).contains [c.toLower] || (tokenize l.location).contains [c.toLower]

/-- Core of executeWithRetry: fn gives the outcome of each attempt by
index, i is the index of the next attempt, the second argument counts
loop iterations still allowed, delay is the current backoff.  The
returned list records the waits performed (each the delay current when
the wait was issued, doubled afterwards); the none result is the
undefined value a zero retry count produces (the loop body never
runs). -/
def runRetry {E A : Type} (fn : Nat → Except E A) :
    Nat → Nat → Nat → Option (Except E A) × List Nat
  | _, 0, _ => (none, [])
  | i, r + 1, delay =>
    match fn i with
    | .ok a => (some (.ok a), [])
    | .error e =>
      if r == 0 then (some (.error e), [])
      else
        let next := runRetry fn (i + 1) r (2 * delay)
        (next.1, delay :: next.2)

/-- Retry helper executeWithRetry(fn, retries, delay): run fn up to
retries times; after a failed attempt that is not the last, wait the
current delay and double it; re-raise the failure of the last attempt
once exhausted. -/
def executeWithRetry {E A : Type} (fn : Nat → Except E A)
    (retries : Nat) (delay : Nat) : Option (Except E A) × List Nat :=
  runRetry fn 0 retries delay

/-- JSON value of the spaces field of a PUT /lessons/:id body (numbers
modelled as integers). -/
inductive JVal where
  | num (n : Int)
  | str (s : String)
  | boolean (b : Bool)
  | null
deriving Repr, DecidableEq

/-- Body of a PUT /lessons/:id request: the optional fields to set.  The
spaces field keeps its raw JSON value because the handler type-checks
it; the _id field is deleted by the handler before the store call and is
not modelled. -/
structure UpdateReq where
  subject : Option String
  location : Option String
  price : Option Int
  spaces : Option JVal
deriving Repr, DecidableEq

/-- Spaces validity test of PUT /lessons/:id: the value must be a number
that is at least 0. -/
def validSpaces (v : JVal) : Bool :=
  match v with
  | .num n => decide (0 ≤ n)
  | _ => false

/-- Guard of PUT /lessons/:id: when a spaces field is present it must be
valid. -/
def spacesInvalid (u : UpdateReq) : Bool :=
  match u.spaces with
  | some v => !(validSpaces v)
  | none => false

/-- Application of the set document to a lesson. -/
def applyUpdates (l : Lesson) (u : UpdateReq) : Lesson :=
  { l with
    subject := u.subject.getD l.subject
    location := u.location.getD l.location
    price := u.price.getD l.price
    spaces :=
      match u.spaces with
      | some (.num n) => n
      | _ => l.spaces }

/-- Model of findOneAndUpdate by _id with returnDocument after: update
the first matching document and return it post-update. -/
def findOneAndUpdate : List Lesson → Nat → UpdateReq → Option Lesson × List Lesson
  | [], _, _ => (none, [])
  | l :: rest, id, u =>
    if l.id == id then (some (applyUpdates l u), applyUpdates l u :: rest)
    else
      let next := findOneAndUpdate rest id u
      (next.1, l :: next.2)

/-- Update failures of PUT /lessons/:id. -/
inductive UpdateError where
  | invalidSpaces
  | notFound
deriving Repr, DecidableEq

/-- PUT /lessons/:id handler: validate the spaces field (when present)
before any store access, then findOneAndUpdate; answer 404 when no
document matched. -/
def updateLesson (st : Store) (id : Nat) (u : UpdateReq) :
    Except UpdateError Lesson × Store :=
  if spacesInvalid u then (.error .invalidSpaces, st)
  else
    match findOneAndUpdate st.lessons id u with
    | (none, ls) => (.error .notFound, { st with lessons := ls })
    | (some l, ls) => (.ok l, { st with lessons := ls })

/-! Helper lemmas about the store operations. -/

/-- Restatement of find? on a cons whose head satisfies the predicate,
with the predicate explicit. -/
lemma find?_cons_pos {α : Type} (p : α → Bool) (a : α) (l : List α) (h : p a = true) :
    (a :: l).find? p = some a := List.find?_cons_of_pos l h

/-- Restatement of find? on a cons whose head fails the predicate, with
the predicate explicit. -/
lemma find?_cons_neg {α : Type} (p : α → Bool) (a : α) (l : List α) (h : p a = false) :
    (a :: l).find? p = l.find? p := List.find?_cons_of_neg l (by simp [h])

/-- Decrementing a lesson keeps it the first match for its own id. -/
lemma find?_updateOneDec_self (ls : List Lesson) (id : Nat) (q : Int) :
    (updateOneDec ls id q).find? (fun l => l.id == id) =
      (ls.find? (fun l => l.id == id)).map (fun l => { l with spaces := l.spaces - q }) := by
  induction ls with
  | nil => rfl
  | cons l rest ih =>
    by_cases h : l.id = id
    · have hb : (l.id == id) = true := beq_iff_eq.mpr h
      simp [updateOneDec, hb]
    · have hb : (l.id == id) = false := beq_eq_false_iff_ne.mpr h
      simp [updateOneDec, hb, ih]

/-- Decrementing one lesson does not disturb lookups of other ids. -/
lemma find?_updateOneDec_ne (ls : List Lesson) (id id2 : Nat) (q : Int) (h : id2 ≠ id) :
    (updateOneDec ls id q).find? (fun l => l.id == id2) = ls.find? (fun l => l.id == id2) := by
  induction ls with
  | nil => rfl
  | cons l rest ih =>
    by_cases h1 : l.id = id
    · have hb1 : (l.id == id) = true := beq_iff_eq.mpr h1
      have hb2 : (l.id == id2) = false := beq_eq_false_iff_ne.mpr (h1 ▸ Ne.symm h)
      simp [updateOneDec, hb1, hb2]
    · have hb1 : (l.id == id) = false := beq_eq_false_iff_ne.mpr h1
      by_cases h2 : l.id = id2
      · have hb2 : (l.id == id2) = true := beq_iff_eq.mpr h2
        simp [updateOneDec, hb1, hb2]
      · have hb2 : (l.id == id2) = false := beq_eq_false_iff_ne.mpr h2
        simp [updateOneDec, hb1, hb2, ih]

/-- Lessons referenced by no line keep their lookup through decAll. -/
lemma find?_decAll_not_mem (ls : List Lesson) (lines : List OrderLine) (id2 : Nat)
    (h : ∀ line ∈ lines, line.lessonId ≠ id2) :
    (decAll ls lines).find? (fun l => l.id == id2) = ls.find? (fun l => l.id == id2) := by
  induction lines generalizing ls with
  | nil => rfl
  | cons hd tl ih =>
    have hstep : decAll ls (hd :: tl) = decAll (updateOneDec ls hd.lessonId hd.quantity) tl := rfl
    rw [hstep, ih _ (fun line hl => h line (List.mem_cons_of_mem _ hl))]
    exact find?_updateOneDec_ne _ _ _ _ (Ne.symm (h hd (List.mem_cons_self _ _)))

/-- With pairwise-distinct line ids, decAll decrements each referenced
lesson exactly by its own quantity. -/
lemma find?_decAll_nodup (ls : List Lesson) (lines : List OrderLine)
    (hnd : (lineIds lines).Nodup) :
    ∀ line ∈ lines,
      (decAll ls lines).find? (fun l => l.id == line.lessonId) =
        (ls.find? (fun l => l.id == line.lessonId)).map
          (fun l => { l with spaces := l.spaces - line.quantity }) := by
  induction lines generalizing ls with
  | nil => intro line h; cases h
  | cons hd tl ih =>
    have hnd' : (hd.lessonId ∉ lineIds tl) ∧ (lineIds tl).Nodup := by
      simpa [lineIds] using hnd
    intro line hline
    have hstep : decAll ls (hd :: tl) = decAll (updateOneDec ls hd.lessonId hd.quantity) tl := rfl
    rcases List.mem_cons.mp hline with rfl | hmem
    · rw [hstep, find?_decAll_not_mem _ tl line.lessonId ?hne]
      · exact find?_updateOneDec_self ls line.lessonId line.quantity
      · intro l2 hl2 heq
        exact hnd'.1 (heq ▸ List.mem_map_of_mem _ hl2)
    · have hne : line.lessonId ≠ hd.lessonId := by
        intro heq
        exact hnd'.1 (heq ▸ List.mem_map_of_mem (fun x => x.lessonId) hmem)
      rw [hstep, ih _ hnd'.2 line hmem, find?_updateOneDec_ne ls hd.lessonId line.lessonId hd.quantity hne]

/-- Loop of POST /orders on an all-sufficient request: no rejection, and
the collection ends as decAll of the lines. -/
lemma processLines_ok (snapshot : List Lesson) :
    ∀ (lines : List OrderLine) (cur : List Lesson),
      (∀ line ∈ lines, ∃ lf, snapshot.find? (fun l => l.id == line.lessonId) = some lf ∧
        ¬(lf.spaces < line.quantity)) →
      processLines snapshot lines cur = (none, decAll cur lines) := by
  intro lines
  induction lines with
  | nil => intro cur _; rfl
  | cons hd tl ih =>
    intro cur h
    obtain ⟨lf, hf, hq⟩ := h hd (List.mem_cons_self _ _)
    have hstep : decAll cur (hd :: tl) = decAll (updateOneDec cur hd.lessonId hd.quantity) tl := rfl
    simp only [processLines, hf, if_neg hq, hstep]
    exact ih _ (fun line hl => h line (List.mem_cons_of_mem _ hl))

/-- Lookup by the id of a member of a collection with distinct ids finds
exactly that member. -/
lemma find?_mem_nodup (ls : List Lesson) (hnd : (ls.map Lesson.id).Nodup)
    (l : Lesson) (hl : l ∈ ls) :
    ls.find? (fun x => x.id == l.id) = some l := by
  induction ls with
  | nil => cases hl
  | cons hd tl ih =>
    have hnd' : (hd.id ∉ tl.map Lesson.id) ∧ (tl.map Lesson.id).Nodup := by
      simpa using hnd
    rcases List.mem_cons.mp hl with rfl | hmem
    · simp
    · have hne : hd.id ≠ l.id := by
        intro heq
        exact hnd'.1 (heq ▸ List.mem_map_of_mem Lesson.id hmem)
      rw [find?_cons_neg (fun x => x.id == l.id) hd tl (beq_eq_false_iff_ne.mpr hne)]
      exact ih hnd'.2 hmem

/-- Two pointwise-equal predicates find the same first element. -/
lemma find?_congr_pred {α : Type} (ls : List α) (p q : α → Bool) (h : ∀ x ∈ ls, p x = q x) :
    ls.find? p = ls.find? q := by
  induction ls with
  | nil => rfl
  | cons a l ih =>
    have ha := h a (List.mem_cons_self _ _)
    by_cases hp : p a = true
    · rw [find?_cons_pos p a l hp, find?_cons_pos q a l (ha ▸ hp)]
    · have hp' : p a = false := Bool.eq_false_iff.mpr hp
      rw [find?_cons_neg p a l hp', find?_cons_neg q a l (ha ▸ hp')]
      exact ih (fun x hx => h x (List.mem_cons_of_mem _ hx))

/-- Lookup of a referenced id in the batch-lookup result coincides with
lookup in the whole collection. -/
lemma find?_existingFor (ls : List Lesson) (ids : List Nat) (id : Nat) (hid : id ∈ ids) :
    (existingFor ls ids).find? (fun l => l.id == id) = ls.find? (fun l => l.id == id) := by
  rw [existingFor, List.find?_filter]
  apply find?_congr_pred
  intro x _
  by_cases h : x.id = id
  · subst h
    simp [List.contains, List.elem_iff, hid]
  · simp [beq_eq_false_iff_ne.mpr h]

/-- Membership in the id list of the batch-lookup result. -/
lemma mem_map_existingFor (ls : List Lesson) (ids : List Nat) (x : Nat) :
    x ∈ (existingFor ls ids).map Lesson.id ↔ (∃ l ∈ ls, l.id = x) ∧ x ∈ ids := by
  simp only [existingFor, List.mem_map, List.mem_filter]
  constructor
  · rintro ⟨l, ⟨hl, hc⟩, rfl⟩
    exact ⟨⟨l, hl, rfl⟩, by simpa [List.contains, List.elem_iff] using hc⟩
  · rintro ⟨⟨l, hl, rfl⟩, hx⟩
    exact ⟨l, ⟨hl, by simpa [List.contains, List.elem_iff] using hx⟩, rfl⟩

/-- Ids of the batch-lookup result are distinct when the collection ids
are. -/
lemma nodup_map_existingFor (ls : List Lesson) (ids : List Nat)
    (hnd : (ls.map Lesson.id).Nodup) : ((existingFor ls ids).map Lesson.id).Nodup :=
  hnd.sublist (List.Sublist.map Lesson.id (List.filter_sublist ls))

/-- Count of the batch lookup when the referenced ids are distinct and
all exist: one document per id. -/
lemma length_existingFor (ls : List Lesson) (ids : List Nat)
    (hnd : (ls.map Lesson.id).Nodup) (hids : ids.Nodup)
    (hex : ∀ id ∈ ids, ∃ l ∈ ls, l.id = id) :
    (existingFor ls ids).length = ids.length := by
  have h1 := nodup_map_existingFor ls ids hnd
  have h3 : ((existingFor ls ids).map Lesson.id).toFinset = ids.toFinset := by
    ext x
    simp only [List.mem_toFinset, mem_map_existingFor]
    exact ⟨fun h => h.2, fun hx => ⟨hex x hx, hx⟩⟩
  have hperm := List.perm_of_nodup_nodup_toFinset_eq h1 hids h3
  calc (existingFor ls ids).length
      = ((existingFor ls ids).map Lesson.id).length := (List.length_map _ _).symm
    _ = ids.length := hperm.length_eq

/-- Characterization of the count check of POST /orders: the batch
returns as many documents as ids exactly when the ids are distinct and
all exist. -/
lemma length_existingFor_eq_iff (ls : List Lesson) (ids : List Nat)
    (hnd : (ls.map Lesson.id).Nodup) :
    (existingFor ls ids).length = ids.length ↔
      (ids.Nodup ∧ ∀ id ∈ ids, ∃ l ∈ ls, l.id = id) := by
  constructor
  · intro hlen
    have h1 := nodup_map_existingFor ls ids hnd
    have hsub : ((existingFor ls ids).map Lesson.id).toFinset ⊆ ids.toFinset := by
      intro x hx
      exact List.mem_toFinset.mpr ((mem_map_existingFor ls ids x).mp (List.mem_toFinset.mp hx)).2
    have hc1 : ((existingFor ls ids).map Lesson.id).toFinset.card = (existingFor ls ids).length := by
      rw [List.toFinset_card_of_nodup h1, List.length_map]
    have hle : ids.length ≤ ids.toFinset.card := by
      calc ids.length = (existingFor ls ids).length := hlen.symm
        _ = ((existingFor ls ids).map Lesson.id).toFinset.card := hc1.symm
        _ ≤ ids.toFinset.card := Finset.card_le_card hsub
    have hcard : ids.toFinset.card = ids.length := le_antisymm ids.toFinset_card_le hle
    have hidsnd : ids.Nodup := by
      have hdl : ids.dedup.length = ids.length := by
        rw [← List.card_toFinset]; exact hcard
      exact List.dedup_eq_self.mp (ids.dedup_sublist.eq_of_length hdl)
    refine ⟨hidsnd, ?_⟩
    have hseteq : ((existingFor ls ids).map Lesson.id).toFinset = ids.toFinset := by
      apply Finset.eq_of_subset_of_card_le hsub
      rw [hc1, hlen, hcard]
    intro id hid
    have hmem : id ∈ ((existingFor ls ids).map Lesson.id).toFinset :=
      hseteq ▸ List.mem_toFinset.mpr hid
    exact ((mem_map_existingFor ls ids id).mp (List.mem_toFinset.mp hmem)).1
  · rintro ⟨hids, hex⟩
    exact length_existingFor ls ids hnd hids hex

/-- Transfer between per-id and per-line existence statements. -/
lemma exists_id_iff (ls : List Lesson) (lines : List OrderLine) :
    (∀ id ∈ lineIds lines, ∃ l ∈ ls, l.id = id) ↔
      (∀ line ∈ lines, ∃ l ∈ ls, l.id = line.lessonId) := by
  constructor
  · intro h line hl
    exact h line.lessonId (List.mem_map_of_mem _ hl)
  · intro h id hid
    obtain ⟨line, hl, rfl⟩ := List.mem_map.mp hid
    exact h line hl

/-- Reduction of POST /orders past its three input validations and the
count check. -/
lemma placeOrder_reduce (st : Store) (req : OrderReq)
    (hname : validateName req.name = true) (hphone : validatePhone req.phone = true)
    (hne : req.lessons ≠ [])
    (hlen : (existingFor st.lessons (lineIds req.lessons)).length = req.lessons.length) :
    placeOrder st req =
      match processLines (existingFor st.lessons (lineIds req.lessons)) req.lessons st.lessons with
      | (some badId, cur) => (.error (.insufficientSpaces badId), { st with lessons := cur })
      | (none, cur) => (.ok (mkOrder req), { lessons := cur, orders := st.orders ++ [mkOrder req] }) := by
  have hie : req.lessons.isEmpty = false := by simp [List.isEmpty_eq_false, hne]
  unfold placeOrder
  rw [hname, hphone, hie]
  simp only [Bool.not_true, Bool.false_eq_true, if_false]
  rw [if_neg (fun hcon => hcon hlen)]

/-! Claim C1. -/

/-- Store with a single Math lesson, used to exhibit the duplicate-line
rejection. -/
def c1DupStore : Store := ⟨[⟨1, "Math", "Hall", 10, 5⟩], []⟩

/-- Request whose two lines reference the same existing lesson, each
well within the available spaces. -/
def c1DupReq : OrderReq := ⟨"Jo", "12345678", [⟨1, 2⟩, ⟨1, 2⟩]⟩

/-- C1 (counterexample): a request that passes name, phone and
lesson-list validation and whose every line requests at most the
referenced lesson's current spaces (the single referenced lesson has id
1, spaces 5, and each line asks for 2) is nevertheless rejected as
LessonNotFound — with no decrement and no order inserted — because its
two lines reference the same lesson and the batch lookup returns the
document only once.  This refutes the claim as stated. -/
theorem C1_duplicate_lines_rejected :
    validateName "Jo" = true ∧ validatePhone "12345678" = true ∧
    c1DupReq.lessons ≠ [] ∧
    findLesson c1DupStore 1 = some ⟨1, "Math", "Hall", 10, 5⟩ ∧
    (2 : Int) ≤ 5 ∧
    placeOrder c1DupStore c1DupReq = (Except.error OrderError.lessonNotFound, c1DupStore) := by
  decide

/-- C1 (amended): for every order request that passes name, phone and
lesson-list validation, whose lines reference pairwise-distinct lesson
identifiers, each of an existing lesson with spaces at least the line's
quantity (the store ids being unique, as Mongo guarantees for _id),
order placement succeeds: it inserts exactly the built order — whose
lesson list is the request's lesson list — at the end of the orders
collection, and every referenced lesson's spaces decreases by exactly
that line's quantity. -/
theorem C1_valid_order_decrements_and_records (st : Store) (req : OrderReq)
    (hstore : (st.lessons.map Lesson.id).Nodup)
    (hname : validateName req.name = true)
    (hphone : validatePhone req.phone = true)
    (hne : req.lessons ≠ [])
    (hnd : (lineIds req.lessons).Nodup)
    (hex : ∀ line ∈ req.lessons, ∃ l ∈ st.lessons,
      l.id = line.lessonId ∧ line.quantity ≤ l.spaces) :
    placeOrder st req =
      (Except.ok (mkOrder req),
        { lessons := decAll st.lessons req.lessons
          orders := st.orders ++ [mkOrder req] }) ∧
    (mkOrder req).lessons = req.lessons ∧
    (∀ line ∈ req.lessons, ∀ l ∈ st.lessons, l.id = line.lessonId →
      findLesson
          { lessons := decAll st.lessons req.lessons
            orders := st.orders ++ [mkOrder req] } line.lessonId =
        some { l with spaces := l.spaces - line.quantity }) := by
  have hexid : ∀ id ∈ lineIds req.lessons, ∃ l ∈ st.lessons, l.id = id := by
    intro id hid
    obtain ⟨line, hl, rfl⟩ := List.mem_map.mp hid
    obtain ⟨l, hlm, hlid, _⟩ := hex line hl
    exact ⟨l, hlm, hlid⟩
  have hlen : (existingFor st.lessons (lineIds req.lessons)).length = req.lessons.length := by
    rw [length_existingFor st.lessons _ hstore hnd hexid, lineIds, List.length_map]
  have hsnap : ∀ line ∈ req.lessons, ∃ lf,
      (existingFor st.lessons (lineIds req.lessons)).find? (fun l => l.id == line.lessonId) =
        some lf ∧ ¬(lf.spaces < line.quantity) := by
    intro line hl
    obtain ⟨l, hlm, hlid, hq⟩ := hex line hl
    refine ⟨l, ?_, by omega⟩
    rw [find?_existingFor st.lessons (lineIds req.lessons) line.lessonId
      (List.mem_map_of_mem _ hl), ← hlid]
    exact find?_mem_nodup st.lessons hstore l hlm
  refine ⟨?_, rfl, ?_⟩
  · rw [placeOrder_reduce st req hname hphone hne hlen,
      processLines_ok (existingFor st.lessons (lineIds req.lessons)) req.lessons st.lessons hsnap]
  · intro line hline l hlm hlid
    show (decAll st.lessons req.lessons).find? (fun x => x.id == line.lessonId) = _
    rw [find?_decAll_nodup st.lessons req.lessons hnd line hline, ← hlid,
      find?_mem_nodup st.lessons hstore l hlm]
    rfl

/-- Store for the C1 witness: two lessons with ids 1 and 2. -/
def c1Store : Store := ⟨[⟨1, "Math", "Hall", 10, 5⟩, ⟨2, "Art", "Annex", 8, 4⟩], []⟩

/-- Request for the C1 witness: two lines on distinct existing lessons,
both within the available spaces. -/
def c1Req : OrderReq := ⟨"Jo", "(555) 123-4567", [⟨1, 2⟩, ⟨2, 1⟩]⟩

/-- C1 (witness): the amended theorem applied to a concrete store and
request. -/
theorem C1_valid_order_decrements_and_records_witness :
    placeOrder c1Store c1Req =
      (Except.ok (mkOrder c1Req),
        { lessons := decAll c1Store.lessons c1Req.lessons
          orders := c1Store.orders ++ [mkOrder c1Req] }) :=
  (C1_valid_order_decrements_and_records c1Store c1Req (by decide) (by decide) (by decide)
    (by decide) (by decide) (by decide)).1

/-! Claim C3. -/

/-- Store with a single Science lesson for the duplicate-reference
counterexample. -/
def c3DupStore : Store := ⟨[⟨3, "Science", "Lab", 12, 9⟩], []⟩

/-- Request whose two lines reference the same (existing) lesson. -/
def c3DupReq : OrderReq := ⟨"Al", "87654321", [⟨3, 1⟩, ⟨3, 1⟩]⟩

/-- C3 (counterexample): every identifier referenced by the request
exists in the store (both lines reference lesson 3, which is present),
yet the operation fails with LessonNotFound, because the batch lookup
returns the repeated document only once and the count comparison is
against the number of lines.  So the failure is not equivalent to some
referenced identifier not existing. -/
theorem C3_duplicates_reported_not_found :
    findLesson c3DupStore 3 = some ⟨3, "Science", "Lab", 12, 9⟩ ∧
    (placeOrder c3DupStore c3DupReq).1 = Except.error OrderError.lessonNotFound := by
  decide

/-- C3 (amended): for requests that pass name, phone and lesson-list
validation, against a store with unique ids, order placement fails with
LessonNotFound exactly when the referenced identifiers are not pairwise
distinct or some referenced identifier does not exist — equivalently,
exactly when the batch count differs from the line count. -/
theorem C3_lesson_not_found_iff (st : Store) (req : OrderReq)
    (hstore : (st.lessons.map Lesson.id).Nodup)
    (hname : validateName req.name = true)
    (hphone : validatePhone req.phone = true)
    (hne : req.lessons ≠ []) :
    (placeOrder st req).1 = Except.error OrderError.lessonNotFound ↔
      ¬((lineIds req.lessons).Nodup ∧
        ∀ line ∈ req.lessons, ∃ l ∈ st.lessons, l.id = line.lessonId) := by
  have hchar := length_existingFor_eq_iff st.lessons (lineIds req.lessons) hstore
  by_cases hlen : (existingFor st.lessons (lineIds req.lessons)).length = req.lessons.length
  · have hgood : (lineIds req.lessons).Nodup ∧
        ∀ line ∈ req.lessons, ∃ l ∈ st.lessons, l.id = line.lessonId := by
      have hh := hchar.mp (by rw [hlen, lineIds, List.length_map])
      exact ⟨hh.1, (exists_id_iff st.lessons req.lessons).mp hh.2⟩
    have hred := placeOrder_reduce st req hname hphone hne hlen
    apply iff_of_false
    · intro h
      rw [hred] at h
      rcases hpl : processLines (existingFor st.lessons (lineIds req.lessons))
          req.lessons st.lessons with ⟨ob, cur⟩
      rw [hpl] at h
      cases ob with
      | none => simp at h
      | some bad => simp at h
    · exact fun hc => hc hgood
  · have hred : placeOrder st req = (.error .lessonNotFound, st) := by
      have hie : req.lessons.isEmpty = false := by simp [List.isEmpty_eq_false, hne]
      unfold placeOrder
      rw [hname, hphone, hie]
      simp only [Bool.not_true, Bool.false_eq_true, if_false]
      rw [if_pos hlen]
    apply iff_of_true
    · rw [hred]
    · rintro ⟨hnd2, hex2⟩
      apply hlen
      rw [hchar.mpr ⟨hnd2, (exists_id_iff _ _).mpr hex2⟩, lineIds, List.length_map]

/-- Store for the C3 witness. -/
def c3Store : Store := ⟨[⟨1, "Math", "Hall", 10, 5⟩], []⟩

/-- Request for the C3 witness, referencing the absent id 99. -/
def c3Req : OrderReq := ⟨"Jo", "12345678", [⟨99, 1⟩]⟩

/-- C3 (witness): the amended equivalence applied to a concrete request
referencing a missing lesson. -/
theorem C3_lesson_not_found_iff_witness :
    (placeOrder c3Store c3Req).1 = Except.error OrderError.lessonNotFound :=
  (C3_lesson_not_found_iff c3Store c3Req (by decide) (by decide) (by decide) (by decide)).mpr
    (by decide)

/-! Claim C2. -/

/-- Store for the partial-decrement run: lesson 1 has 5 spaces, lesson 2
only 1. -/
def c2Store : Store := ⟨[⟨1, "Math", "Hall", 10, 5⟩, ⟨2, "Art", "Annex", 8, 1⟩], []⟩

/-- Request whose first line fits (2 of 5) and whose second does
not (5 of 1). -/
def c2Req : OrderReq := ⟨"Jo", "12345678", [⟨1, 2⟩, ⟨2, 5⟩]⟩

/-- C2 (code behavior at the failing input): the request is rejected
with InsufficientSpaces naming the first offending lesson (id 2) and no
order is inserted, but lesson 1's spaces have already been decremented
from 5 to 3 — the store does change, contradicting the claimed
atomicity of rejection. -/
theorem C2_partial_decrement_on_rejection :
    placeOrder c2Store c2Req =
      (Except.error (OrderError.insufficientSpaces 2),
        ⟨[⟨1, "Math", "Hall", 10, 3⟩, ⟨2, "Art", "Annex", 8, 1⟩], []⟩) ∧
    (placeOrder c2Store c2Req).2 ≠ c2Store := by
  decide

/-! Claim C4. -/

/-- C4: name validation passes exactly when the trimmed name matches the
anchored pattern (two or more characters from letters, whitespace,
apostrophe, hyphen); the extra falsy-name guard of the handler is
subsumed, since the empty name also fails the pattern.  In particular
"Jo" passes while "J" and "John123" fail. -/
theorem C4_name_validation :
    (∀ name : String, validateName name = matchesNamePattern (jsTrim name)) ∧
    validateName "Jo" = true ∧ validateName "J" = false ∧ validateName "John123" = false := by
  refine ⟨?_, by decide, by decide, by decide⟩
  intro name
  by_cases h : name = ""
  · subst h; decide
  · simp [validateName, h]

/-! Claim C5. -/

/-- C5: phone validation fails exactly when fewer than 8 digits remain
after stripping all non-digit characters; the example phone normalizes
to 5551234567 and passes while 1234 fails; and every successfully
inserted order carries the normalized digits-only phone. -/
theorem C5_phone_validation :
    (∀ phone : String, validatePhone phone = true ↔
      8 ≤ (phone.data.filter Char.isDigit).length) ∧
    jsDigits "(555) 123-4567" = "5551234567" ∧
    validatePhone "(555) 123-4567" = true ∧
    validatePhone "1234" = false ∧
    (∀ st req o st2, placeOrder st req = (Except.ok o, st2) → o.phone = jsDigits req.phone) := by
  refine ⟨?_, by decide, by decide, by decide, ?_⟩
  · intro phone
    rw [show validatePhone phone = decide (8 ≤ (phone.data.filter Char.isDigit).length) from rfl]
    exact decide_eq_true_iff
  · intro st req o st2 h
    unfold placeOrder at h
    repeat' split at h
    all_goals simp_all [mkOrder]
    obtain ⟨h1, h2⟩ := h
    rw [← h1]

/-- Store for the C5 witness. -/
def c5Store : Store := ⟨[⟨1, "Math", "Hall", 10, 5⟩], []⟩

/-- Request for the C5 witness, with a formatted phone. -/
def c5Req : OrderReq := ⟨"Jo", "(555) 123-4567", [⟨1, 1⟩]⟩

/-- C5 (witness): the insertion clause applied to a concrete successful
placement. -/
theorem C5_phone_validation_witness :
    (mkOrder c5Req).phone = jsDigits c5Req.phone :=
  C5_phone_validation.2.2.2.2 c5Store c5Req (mkOrder c5Req)
    { lessons := decAll c5Store.lessons c5Req.lessons
      orders := c5Store.orders ++ [mkOrder c5Req] } (by decide)

/-! Claim C9. -/

/-- Store for the no-letter-name order. -/
def c9Store : Store := ⟨[⟨7, "Judo", "Gym", 6, 3⟩], []⟩

/-- Request whose name is two hyphens. -/
def c9Req : OrderReq := ⟨"--", "12345678", [⟨7, 1⟩]⟩

/-- C9 (counterexample): a name of two spaces — offered by the claim as
an example of a letterless name that passes — in fact fails validation,
because the handler trims the name before testing the pattern and the
trimmed value is empty. -/
theorem C9_all_whitespace_name_fails : validateName "  " = false := by decide

/-- C9 (amended): a name containing no letters passes validation
provided at least two class characters survive trimming: two hyphens or
two apostrophes pass, and such a request can produce a confirmed order;
all-whitespace names, by contrast, trim to empty and fail. -/
theorem C9_no_letter_name_accepted :
    validateName "--" = true ∧
    validateName ⟨[Char.ofNat 39, Char.ofNat 39]⟩ = true ∧
    (placeOrder c9Store c9Req).1 = Except.ok (mkOrder c9Req) ∧
    (mkOrder c9Req).name = "--" ∧
    (mkOrder c9Req).status = "confirmed" := by
  decide

/-! Claim C10. -/

/-- C10: when the spaces field of an update body is present and not a
number at least 0, the handler fails with the invalid-spaces error and
returns the store unchanged, whatever the target identifier — the
validity check runs before the store lookup, so InvalidInput takes
precedence over NotFound. -/
theorem C10_invalid_spaces_precedes_lookup (st : Store) (id : Nat) (u : UpdateReq) (v : JVal)
    (hv : u.spaces = some v) (hbad : validSpaces v = false) :
    updateLesson st id u = (Except.error UpdateError.invalidSpaces, st) := by
  have hsi : spacesInvalid u = true := by
    simp [spacesInvalid, hv, hbad]
  simp [updateLesson, hsi]

/-- Store for the C10 witness: lesson 5 exists, so a NotFound answer
would otherwise be possible. -/
def c10Store : Store := ⟨[⟨5, "Drama", "Stage", 7, 6⟩], []⟩

/-- Update body carrying the invalid spaces value -1. -/
def c10Upd : UpdateReq := ⟨none, none, none, some (JVal.num (-1))⟩

/-- C10 (witness): the theorem applied to a concrete invalid update. -/
theorem C10_invalid_spaces_precedes_lookup_witness :
    updateLesson c10Store 5 c10Upd = (Except.error UpdateError.invalidSpaces, c10Store) :=
  C10_invalid_spaces_precedes_lookup c10Store 5 c10Upd (JVal.num (-1)) rfl (by decide)

/-! Claim C6. -/

/-- Store with a lesson whose subject contains the letter c as a
substring but not as a token. -/
def c6ChessStore : Store := ⟨[⟨4, "Chess", "Hall", 9, 5⟩], []⟩

/-- C6 (counterexample): for the one-character non-numeric query c, the
claim says the search returns exactly the lessons whose subject or
location case-insensitively contains that character; the Chess lesson
contains it, yet the handler — which sends every non-numeric query to
the full-text index and has no single-character branch — returns
nothing, because c is not a whole token of Chess or Hall. -/
theorem C6_substring_not_returned :
    jsToNumber "c" = none ∧
    specSingleCharMatch 'c' ⟨4, "Chess", "Hall", 9, 5⟩ = true ∧
    searchLessons c6ChessStore "c" = some [] := by
  decide

/-- C6 (amended): for every query string that is exactly one character,
alphanumeric and not parsing as a number, the search operation returns
exactly the lessons having that character (lowercased) as a whole token
of subject or location — token matching by the text index, not substring
containment. -/
theorem C6_single_char_token_search (st : Store) (q : String) (c : Char)
    (hq : q.data = [c]) (halpha : c.isAlphanum = true) (hnum : jsToNumber q = none) :
    searchLessons st q = some (st.lessons.filter (tokenHasChar c)) := by
  have hq0 : q ≠ "" := by
    intro h
    subst h
    simp at hq
  have hqmk : q = ⟨[c]⟩ := by
    cases q
    exact congrArg String.mk hq
  have htok : tokenize q = [[c.toLower]] := by
    rw [hqmk]
    simp [tokenize, tokenizeAux, halpha]
  unfold searchLessons
  rw [if_neg hq0, hnum]
  show some _ = some _
  congr 1
  apply List.filter_congr
  intro l _
  simp [textMatches, htok, tokenHasChar]

/-- Store for the C6 witness: the subject is the single letter M, so the
query m is one of its tokens. -/
def c6TokenStore : Store := ⟨[⟨1, "M", "x", 0, 0⟩], []⟩

/-- C6 (witness): the amended theorem applied to the query m. -/
theorem C6_single_char_token_search_witness :
    searchLessons c6TokenStore "m" = some (c6TokenStore.lessons.filter (tokenHasChar 'm')) :=
  C6_single_char_token_search c6TokenStore "m" 'm' (by decide) (by decide) (by decide)

/-! Claim C7. -/

/-- Store with one lesson for the zero-limit counterexample. -/
def c7OneStore : Store := ⟨[⟨5, "Drama", "Stage", 7, 6⟩], []⟩

/-- C7 (counterexample): with limit the numeric string 0 — which is
present and numeric, so per the claim l = 0 and at most 0 lessons should
come back — the handler instead falls back to the default limit 10 (the
parseInt or-else idiom treats 0 as falsy) and returns the lesson. -/
theorem C7_zero_limit_defaults :
    listLessons c7OneStore none (some "0") = some [⟨5, "Drama", "Stage", 7, 6⟩] := by
  decide

/-- C7 (amended): writing p and l for the values produced by the
parseInt or-else defaulting (default 1 and 10, applying when the
parameter is absent, has no leading integer, or parses to 0), whenever
p is at least 1 and l at least 0 the listing returns the lessons after
skipping (p-1)*l and taking at most l, in the store's default order. -/
theorem C7_pagination (st : Store) (pageP limitP : Option String)
    (hp : 1 ≤ intOrDefault pageP 1) (hl : 0 ≤ intOrDefault limitP 10) :
    listLessons st pageP limitP =
      some ((st.lessons.drop
          (((intOrDefault pageP 1 - 1) * intOrDefault limitP 10).toNat)).take
        (intOrDefault limitP 10).toNat) := by
  have hskip : ¬((intOrDefault pageP 1 - 1) * intOrDefault limitP 10 < 0 ∨
      intOrDefault limitP 10 < 0) := by
    push_neg
    exact ⟨mul_nonneg (by omega) hl, hl⟩
  unfold listLessons
  rw [if_neg hskip]

/-- Store of ten lessons, ids 1 through 10, in default order. -/
def c7TenStore : Store :=
  ⟨[⟨1, "S", "L", 0, 0⟩, ⟨2, "S", "L", 0, 0⟩, ⟨3, "S", "L", 0, 0⟩, ⟨4, "S", "L", 0, 0⟩,
    ⟨5, "S", "L", 0, 0⟩, ⟨6, "S", "L", 0, 0⟩, ⟨7, "S", "L", 0, 0⟩, ⟨8, "S", "L", 0, 0⟩,
    ⟨9, "S", "L", 0, 0⟩, ⟨10, "S", "L", 0, 0⟩], []⟩

/-- C7 (witness): page 2 with limit 5 returns items 6 through 10 of the
default ordering. -/
theorem C7_pagination_witness :
    listLessons c7TenStore (some "2") (some "5") =
      some [⟨6, "S", "L", 0, 0⟩, ⟨7, "S", "L", 0, 0⟩, ⟨8, "S", "L", 0, 0⟩,
        ⟨9, "S", "L", 0, 0⟩, ⟨10, "S", "L", 0, 0⟩] :=
  C7_pagination c7TenStore (some "2") (some "5") (by decide) (by decide)

/-! Claim C8. -/

/-- Run of the retry loop that reaches a first success at offset k: the
result is that success, after waits of the current delay doubled at each
failed attempt. -/
lemma runRetry_first_success {E A : Type} (fn : Nat → Except E A) :
    ∀ (r i delay k : Nat) (a : A), k < r →
      (∀ j, j < k → ∃ e, fn (i + j) = Except.error e) →
      fn (i + k) = Except.ok a →
      runRetry fn i r delay =
        (some (Except.ok a), (List.range k).map (fun j => delay * 2 ^ j)) := by
  intro r
  induction r with
  | zero => intro i delay k a hk; omega
  | succ r ih =>
    intro i delay k a hk hfail hok
    cases k with
    | zero =>
      have hok0 : fn i = Except.ok a := by simpa using hok
      simp [runRetry, hok0]
    | succ k =>
      obtain ⟨e0, he0⟩ := hfail 0 (Nat.succ_pos k)
      have he0i : fn i = Except.error e0 := by simpa using he0
      have hrb : (r == 0) = false := by
        have : r ≠ 0 := by omega
        simpa using this
      have hshift : ∀ j, j < k → ∃ e, fn (i + 1 + j) = Except.error e := by
        intro j hj
        obtain ⟨e, he⟩ := hfail (j + 1) (by omega)
        exact ⟨e, by rwa [show i + (j + 1) = i + 1 + j by omega] at he⟩
      have hoks : fn (i + 1 + k) = Except.ok a := by
        rwa [show i + (k + 1) = i + 1 + k by omega] at hok
      have hrec := ih (i + 1) (2 * delay) k a (by omega) hshift hoks
      simp only [runRetry, he0i, hrb, Bool.false_eq_true, if_false, hrec]
      rw [List.range_succ_eq_map]
      simp only [List.map_cons, List.map_map, pow_zero, Nat.mul_one]
      congr 1
      refine congrArg (List.cons delay) ?_
      apply List.map_congr_left
      intro j _
      simp [Function.comp, pow_succ]
      ring

/-- Run of the retry loop in which every attempt fails: the result
re-raises the failure of the last attempt, after a wait per non-final
attempt. -/
lemma runRetry_all_fail {E A : Type} (fn : Nat → Except E A) :
    ∀ (r : Nat), 1 ≤ r → ∀ (i delay : Nat),
      (∀ j, j < r → ∃ e, fn (i + j) = Except.error e) →
      ∃ e, fn (i + (r - 1)) = Except.error e ∧
        runRetry fn i r delay =
          (some (Except.error e), (List.range (r - 1)).map (fun j => delay * 2 ^ j)) := by
  intro r
  induction r with
  | zero => intro h; omega
  | succ r ih =>
    intro _ i delay hfail
    rcases Nat.eq_zero_or_pos r with h0 | hpos
    · subst h0
      obtain ⟨e, he⟩ := hfail 0 Nat.one_pos
      have hei : fn i = Except.error e := by simpa using he
      exact ⟨e, by simpa using he, by simp [runRetry, hei]⟩
    · obtain ⟨e0, he0⟩ := hfail 0 (Nat.succ_pos r)
      have he0i : fn i = Except.error e0 := by simpa using he0
      have hrb : (r == 0) = false := by
        have : r ≠ 0 := by omega
        simpa using this
      have hshift : ∀ j, j < r → ∃ e, fn (i + 1 + j) = Except.error e := by
        intro j hj
        obtain ⟨e, he⟩ := hfail (j + 1) (by omega)
        exact ⟨e, by rwa [show i + (j + 1) = i + 1 + j by omega] at he⟩
      obtain ⟨e, he, hrun⟩ := ih hpos (i + 1) (2 * delay) hshift
      refine ⟨e, ?_, ?_⟩
      · rwa [show i + (r + 1 - 1) = i + 1 + (r - 1) by omega]
      · simp only [runRetry, he0i, hrb, Bool.false_eq_true, if_false, hrun]
        have hr1 : r + 1 - 1 = (r - 1) + 1 := by omega
        rw [hr1, List.range_succ_eq_map]
        simp only [List.map_cons, List.map_map, pow_zero, Nat.mul_one]
        congr 1
        refine congrArg (List.cons delay) ?_
        apply List.map_congr_left
        intro j _
        simp [Function.comp, pow_succ]
        ring

/-- C8: the retry wrapper makes at most the configured number of
attempts indexed from 0; a first success at attempt k returns that
result at once, after having waited the current delay — starting at the
configured value and doubling after each failure — between consecutive
attempts; and when every attempt fails, the failure of the last attempt
is re-raised after the same waits (one per non-final attempt). -/
theorem C8_retry_behavior {E A : Type} (fn : Nat → Except E A) (retries delay : Nat)
    (hr : 1 ≤ retries) :
    (∀ k a, k < retries → (∀ j, j < k → ∃ e, fn j = Except.error e) →
      fn k = Except.ok a →
      executeWithRetry fn retries delay =
        (some (Except.ok a), (List.range k).map (fun j => delay * 2 ^ j))) ∧
    ((∀ j, j < retries → ∃ e, fn j = Except.error e) →
      ∃ e, fn (retries - 1) = Except.error e ∧
        executeWithRetry fn retries delay =
          (some (Except.error e), (List.range (retries - 1)).map (fun j => delay * 2 ^ j))) := by
  constructor
  · intro k a hk hfail hok
    exact runRetry_first_success fn retries 0 delay k a hk
      (by simpa using hfail) (by simpa using hok)
  · intro hfail
    obtain ⟨e, he, hrun⟩ := runRetry_all_fail fn retries hr 0 delay (by simpa using hfail)
    exact ⟨e, by simpa using he, hrun⟩

/-- C8 (witness): a concrete operation failing once then succeeding,
run with the default configuration (3 attempts, initial delay 1000):
the second attempt's value is returned after a single 1000ms wait. -/
theorem C8_retry_behavior_witness :
    executeWithRetry (fun j => if j == 0 then Except.error "boom" else Except.ok (42 : Nat))
        3 1000 =
      (some (Except.ok 42), [1000]) :=
  (C8_retry_behavior (fun j => if j == 0 then Except.error "boom" else Except.ok (42 : Nat))
      3 1000 (by omega)).1 1 42 (by omega)
    (fun j hj => ⟨"boom", by
      have hj0 : j = 0 := by omega
      subst hj0
      rfl⟩)
    rfl

end AfterSchool
